import Mathlib

/-!
# Verification of the RP1 clock driver rate-negotiation core

Shallow embedding of `drivers/clk/clk-rp1.c` (RP1 PCIe multifunction chip
clock driver).  C `u32`/`u64` arithmetic is modelled on `Nat` with explicit
`% 2^32` / `% 2^64` truncation at every step where the C fixed-width
arithmetic can wrap.  Hardware register traffic is modelled as explicit
state passing (register values in structures, write traces as lists);
bounded busy-wait polling is modelled with an explicit fuel argument (one
unit of fuel per poll iteration inside the fixed 100 ms timeout window).
-/

/-- `2^32`, the modulus of C `u32` arithmetic. -/
def M32 : Nat := 2 ^ 32

/-- `2^64`, the modulus of C `u64` / `unsigned long` (LP64) arithmetic. -/
def M64 : Nat := 2 ^ 64

/-- C macro `ABS_DIFF(a, b)` from clk-rp1.c. -/
def absDiff (a b : Nat) : Nat := if a > b then a - b else b - a

/-- C macros `DIV_NEAREST(a, b)` / `DIV_ROUND_CLOSEST` (unsigned case):
round-to-nearest division, computed as `(a + b/2) / b`. -/
def divNearest (a b : Nat) : Nat := (a + b / 2) / b

/-- `CLK_DIV_FRAC_BITS` (16-bit fixed-point fraction of clock dividers). -/
def CLK_DIV_FRAC_BITS : Nat := 16

/-- `ULONG_MAX`, initial value of `best_rate_diff` in
`rp1_clock_determine_rate`. -/
def ULONG_MAX : Nat := 2 ^ 64 - 1

/-- The fields of `struct rp1_clock_data` that the rate mathematics reads.
`div_frac_reg = 0` encodes "no fractional divider register", matching the
C test `if (data->div_frac_reg)`.  Register-offset fields that only name
hardware locations are omitted.  The C fields are `u32` / `int`; instances
used in theorems stay inside those ranges. -/
structure rp1_clock_data where
  num_std_parents : Nat
  num_aux_parents : Nat
  div_frac_reg : Nat
  div_int_max : Nat
  max_freq : Nat
  clk_src_mask : Nat
deriving Repr, DecidableEq

/-- `rp1_clock_choose_div` from clk-rp1.c: pick the 16.16 fixed-point
divider for a Clock leaf.  Returns 0 when the target is zero or exceeds
the parent by more than one fractional LSB of tolerance; otherwise rounds
`parent_rate/rate` in 16.16 fixed point (fractional nodes) or as an
integer shifted up (integer-only nodes), clamps to
`[1 << 16, div_int_max << 16]`, and truncates the `u64` result to the
`u32` return type. -/
def rp1_clock_choose_div (rate parent_rate : Nat) (data : rp1_clock_data) : Nat :=
  if rate = 0 ∨ rate > (parent_rate + (parent_rate >>> CLK_DIV_FRAC_BITS)) % M64 then 0
  else
    let div : Nat :=
      if data.div_frac_reg ≠ 0 then
        ((parent_rate <<< CLK_DIV_FRAC_BITS) % M64 + (rate >>> 1)) % M64 / rate
      else
        (((parent_rate + (rate >>> 1)) % M64 / rate) <<< CLK_DIV_FRAC_BITS) % M64
    let div := max div (1 <<< CLK_DIV_FRAC_BITS)
    let div := min div (data.div_int_max <<< CLK_DIV_FRAC_BITS)
    div % M32

/-- Descriptor data of `clk_gp0` (fractional 16-bit divider leaf,
`CLK_GP0_DIV_FRAC = 0x0017c`, 16 aux parents, 100 MHz maximum;
`.clk_src_mask` is not set in its initializer, hence 0). -/
def clk_gp0_data : rp1_clock_data :=
  { num_std_parents := 0, num_aux_parents := 16, div_frac_reg := 0x0017c
    div_int_max := 0xffff, max_freq := 100 * 1000000, clk_src_mask := 0 }

/-- The (div1, div2) pairs visited by the double loop in
`get_pll_prim_dividers`, in loop order: div1 from 1 to 7, div2 from 1 to
div1. -/
def primPairs : List (Nat × Nat) :=
  (List.range 7).flatMap (fun i => (List.range (i + 1)).map (fun j => (i + 1, j + 1)))

/-- `DIV_ROUND_CLOSEST(parent_rate, div1 * div2)`: candidate output rate
for a primary-divider pair. -/
def primCalcRate (parent_rate : Nat) (p : Nat × Nat) : Nat :=
  divNearest parent_rate (p.1 * p.2)

/-- `ABS_DIFF(calc_rate, rate)` for a primary-divider pair. -/
def primDiff (rate parent_rate : Nat) (p : Nat × Nat) : Nat :=
  absDiff (primCalcRate parent_rate p) rate

/-- The body of the double loop of `get_pll_prim_dividers`: running best
pair and its difference; an exact candidate returns immediately
(`goto done`), a strictly smaller difference replaces the best. -/
def primSearch (rate parent_rate : Nat) :
    List (Nat × Nat) → Nat × Nat → Nat → Nat × Nat
  | [], best, _ => best
  | p :: rest, best, best_rate_diff =>
    if primCalcRate parent_rate p = rate then p
    else if primDiff rate parent_rate p < best_rate_diff then
      primSearch rate parent_rate rest p (primDiff rate parent_rate p)
    else primSearch rate parent_rate rest best best_rate_diff

/-- `get_pll_prim_dividers` from clk-rp1.c: best (div1, div2) starts at
(7, 7) with `best_rate_diff = ABS_DIFF(DIV_ROUND_CLOSEST(parent_rate, 49), rate)`. -/
def get_pll_prim_dividers (rate parent_rate : Nat) : Nat × Nat :=
  primSearch rate parent_rate primPairs (7, 7) (absDiff (divNearest parent_rate 49) rate)

/-- Specification helper: the minimum of `primDiff` over a pair list,
folded together with an initial value `d`. -/
def minDiffFrom (rate parent_rate : Nat) (l : List (Nat × Nat)) (d : Nat) : Nat :=
  l.foldr (fun p m => min (primDiff rate parent_rate p) m) d

/-- `get_pll_core_divider` from clk-rp1.c: 32.32 fixed-point feedback
divisor for a PLL core.  `div_fp64 = round(rate·2^32/parent_rate)` is
rounded at 24 fractional bits, split into a 32-bit integer part and a
24-bit fraction, and the achieved rate is re-derived from the rounded
divisor.  Returns `(calc_rate, fbdiv_int, fbdiv_frac)`. -/
def get_pll_core_divider (rate parent_rate : Nat) : Nat × Nat × Nat :=
  let div_fp64 := (rate <<< 32) % M64
  let div_fp64 := ((div_fp64 + (parent_rate >>> 1)) % M64) / parent_rate
  let div_fp64 := (div_fp64 + (1 <<< (32 - 24 - 1))) % M64
  let fbdiv_int := div_fp64 >>> 32
  let fbdiv_frac := (div_fp64 >>> (32 - 24)) &&& 0xffffff
  let calc_rate := ((parent_rate * ((fbdiv_int <<< 24) + fbdiv_frac) + (1 <<< 23)) % M64) >>> 24
  (calc_rate, fbdiv_int, fbdiv_frac)

/-- `rp1_pll_core_set_rate` from clk-rp1.c, restricted to its rate
computation: the achieved rate cached in `pll_core->cached_rate`, or
`none` when `BUG_ON(parent_rate > (rate / 16))` fires (the kernel crashes
before the rate is cached).  The surrounding register writes (divisor
zeroing, power word, divisor parts, refdiv) carry the same
`fbdiv_int` / `fbdiv_frac` values and do not affect the cached rate. -/
def rp1_pll_core_set_rate (rate parent_rate : Nat) : Option Nat :=
  let calc_rate := (get_pll_core_divider rate parent_rate).1
  if parent_rate > rate / 16 then none else some calc_rate

/-- `rp1_pll_core_round_rate` from clk-rp1.c: pure computation through
the same `get_pll_core_divider` path. -/
def rp1_pll_core_round_rate (rate parent_rate : Nat) : Nat :=
  (get_pll_core_divider rate parent_rate).1

/-- `set_register_field(reg, val, mask, shift)` from clk-rp1.c.  The C
`~mask` on `u32` is the xor with `0xffffffff`. -/
def set_register_field (reg val mask shift : Nat) : Nat :=
  (reg &&& (mask ^^^ 0xffffffff)) ||| ((val <<< shift) &&& mask)

/-- `PLL_PWR_PD` (BIT(0)). -/
def PLL_PWR_PD : Nat := 1

/-- `PLL_PWR_DSMPD` (BIT(2)). -/
def PLL_PWR_DSMPD : Nat := 4

/-- `PLL_PWR_POSTDIVPD` (BIT(3)). -/
def PLL_PWR_POSTDIVPD : Nat := 8

/-- `PLL_PWR_MASK` (0x3f). -/
def PLL_PWR_MASK : Nat := 0x3f

/-- `PLL_CS_LOCK` (BIT(31)). -/
def PLL_CS_LOCK : Nat := 0x80000000

/-- The registers of one PLL core. -/
structure PllCoreRegs where
  cs : Nat
  pwr : Nat
  fbdiv_int : Nat
  fbdiv_frac : Nat
deriving Repr, DecidableEq

/-- `rp1_pll_core_is_on` from clk-rp1.c: the C truth value of
`(pwr & PLL_PWR_PD) || (pwr & PLL_PWR_POSTDIVPD)`. -/
def rp1_pll_core_is_on (regs : PllCoreRegs) : Bool :=
  (regs.pwr &&& PLL_PWR_PD != 0) || (regs.pwr &&& PLL_PWR_POSTDIVPD != 0)

/-- `rp1_pll_core_on` from clk-rp1.c, register effect: when the
lock-detect bit is clear, reset to a known state (all power-down bits,
minimum feedback divisor 20, zero fraction, refdiv 1); then write the
power word — 0 if a fractional remainder is programmed, else only
`PLL_PWR_DSMPD`.  The bounded lock-detect poll that follows only reads
`cs` and does not change any register. -/
def rp1_pll_core_on (regs : PllCoreRegs) : PllCoreRegs :=
  let regs :=
    if regs.cs &&& PLL_CS_LOCK = 0 then
      { regs with pwr := PLL_PWR_MASK, fbdiv_int := 20, fbdiv_frac := 0, cs := 1 }
    else regs
  { regs with pwr := if regs.fbdiv_frac ≠ 0 then 0 else PLL_PWR_DSMPD }

/-- `rp1_pll_core_off` from clk-rp1.c: writes 0 to the power register. -/
def rp1_pll_core_off (regs : PllCoreRegs) : PllCoreRegs :=
  { regs with pwr := 0 }

/-- `CLK_CTRL_AUXSRC_MASK`. -/
def CLK_CTRL_AUXSRC_MASK : Nat := 0x3e0

/-- `CLK_CTRL_AUXSRC_SHIFT`. -/
def CLK_CTRL_AUXSRC_SHIFT : Nat := 5

/-- `CLK_CTRL_SRC_SHIFT`. -/
def CLK_CTRL_SRC_SHIFT : Nat := 0

/-- `AUX_SEL` (index 1 is the auxiliary-source sentinel). -/
def AUX_SEL : Nat := 1

/-- State of the shared register bank as seen by `rp1_clock_set_parent`:
whether `regs_lock` is held, and the node's CTRL register value. -/
structure SetParentState where
  locked : Bool
  ctrl : Nat
deriving Repr, DecidableEq

/-- `rp1_clock_set_parent` from clk-rp1.c: takes `regs_lock`, reads CTRL,
and for an index at or past the std-parent count either rejects an index
at or past std+aux with `-EINVAL` — returning with the spinlock still
held, exactly as the C control flow does — or writes the AUXSRC field
plus the AUX sentinel into the SRC field; a std index writes the SRC
field directly; the successful paths unlock.  Returns the result code
(0 or -EINVAL = -22) and the final bank state.  The verifying read-back
via `rp1_clock_get_parent` (`WARN` only) reads no state modelled here. -/
def rp1_clock_set_parent (data : rp1_clock_data) (index : Nat) (s : SetParentState) :
    Int × SetParentState :=
  let s := { s with locked := true }
  let ctrl := s.ctrl
  if data.num_std_parents ≤ index then
    if data.num_std_parents + data.num_aux_parents ≤ index then
      (-22, s)
    else
      let ctrl := set_register_field ctrl (index - data.num_std_parents)
        CLK_CTRL_AUXSRC_MASK CLK_CTRL_AUXSRC_SHIFT
      let ctrl := set_register_field ctrl AUX_SEL data.clk_src_mask CLK_CTRL_SRC_SHIFT
      (0, { locked := false, ctrl := ctrl })
  else
    let ctrl := set_register_field ctrl index data.clk_src_mask CLK_CTRL_SRC_SHIFT
    (0, { locked := false, ctrl := ctrl })

/-- Descriptor data of `clk_i2s` (9 aux parents, no std parents,
8-bit integer divider, 50 MHz maximum; `.clk_src_mask` is not set in its
initializer, hence 0). -/
def clk_i2s_data : rp1_clock_data :=
  { num_std_parents := 0, num_aux_parents := 9, div_frac_reg := 0
    div_int_max := 0xff, max_freq := 50 * 1000000, clk_src_mask := 0 }

/-- `FC0_STATUS_DONE` (BIT(4)). -/
def FC0_STATUS_DONE : Nat := 0x10

/-- `FC0_STATUS_RUNNING` (BIT(8)). -/
def FC0_STATUS_RUNNING : Nat := 0x100

/-- `FC_COUNT`. -/
def FC_COUNT : Nat := 8

/-- `FC_SIZE`. -/
def FC_SIZE : Nat := 0x20

/-- Frequency-counter register offsets (relative to `fc_offset`). -/
def FC0_REF_KHZ : Nat := 0x0021c

/-- `FC0_MIN_KHZ`. -/
def FC0_MIN_KHZ : Nat := 0x00220

/-- `FC0_MAX_KHZ`. -/
def FC0_MAX_KHZ : Nat := 0x00224

/-- `FC0_DELAY`. -/
def FC0_DELAY : Nat := 0x00228

/-- `FC0_INTERVAL`. -/
def FC0_INTERVAL : Nat := 0x0022c

/-- `FC0_SRC`. -/
def FC0_SRC : Nat := 0x00230

/-- Bounded busy-wait until the masked status bits read as all-clear:
`status k` is the value of the k-th `FC0_STATUS` read; the fuel bounds
the number of poll iterations inside the fixed 100 ms timeout.  Returns
the next read index, or `none` on timeout. -/
def pollClear (status : Nat → Nat) (mask : Nat) (k : Nat) : Nat → Option Nat
  | 0 => if status k &&& mask = 0 then some (k + 1) else none
  | fuel + 1 =>
    if status k &&& mask = 0 then some (k + 1) else pollClear status mask (k + 1) fuel

/-- Bounded busy-wait until the masked status bits read nonzero (DONE
set), with the same fuel convention as `pollClear`. -/
def pollSet (status : Nat → Nat) (mask : Nat) (k : Nat) : Nat → Option Nat
  | 0 => if status k &&& mask ≠ 0 then some (k + 1) else none
  | fuel + 1 =>
    if status k &&& mask ≠ 0 then some (k + 1) else pollSet status mask (k + 1) fuel

/-- `clockman_measure_clock` from clk-rp1.c.  `status` gives the
successive `FC0_STATUS` reads, `result_val` the `FC0_RESULT` read, and
`ref_khz` the reference rate in kHz; `fuel` bounds each 100 ms poll
loop.  Returns the measured rate (0 on failure) together with the list
of `(offset, value)` register writes performed, in order. -/
def clockman_measure_clock (status : Nat → Nat) (result_val ref_khz : Nat)
    (fuel : Nat) (fc0_src : Nat) : Nat × List (Nat × Nat) :=
  let fc_idx := fc0_src / 32
  let fc_src := fc0_src % 32
  if fc_src = 0 ∨ FC_COUNT ≤ fc_idx then (0, [])
  else
    let fc_offset := fc_idx * FC_SIZE
    match pollClear status FC0_STATUS_RUNNING 0 fuel with
    | none => (0, [])
    | some k =>
      let writes :=
        [(fc_offset + FC0_REF_KHZ, ref_khz), (fc_offset + FC0_MIN_KHZ, 0),
         (fc_offset + FC0_MAX_KHZ, 0x1ffffff), (fc_offset + FC0_INTERVAL, 8),
         (fc_offset + FC0_DELAY, 7), (fc_offset + FC0_SRC, fc_src)]
      match pollSet status FC0_STATUS_DONE k fuel with
      | none => (0, writes)
      | some _ => (result_val, writes ++ [(fc_offset + FC0_SRC, 0)])

/-- The fixed ascending `prim_divs` table of `calc_core_pll_rate`. -/
def prim_divs : List Nat :=
  [2, 3, 4, 5, 6, 7, 8, 9, 10, 12, 14, 15, 16,
   18, 20, 21, 24, 25, 28, 30, 35, 36, 42, 49]

/-- One step of the outer loop of `calc_core_pll_rate`: for a primary
divisor, the inner loop takes the first `div_clk` in 1..256 whose product
reaches `core_min`, and it replaces the best on a strictly smaller
resulting VCO rate.  State is `(best_rate, best_div_prim, best_div_clk)`. -/
def primBestStep (core_min target_rate : Nat) (b : Nat × Nat × Nat) (div_prim : Nat) :
    Nat × Nat × Nat :=
  match (List.range' 1 256).find? (fun div_clk =>
      core_min ≤ (target_rate * div_clk * div_prim) % M64) with
  | none => b
  | some div_clk =>
    let core_rate := (target_rate * div_clk * div_prim) % M64
    if core_rate < b.1 then (core_rate, div_prim, div_clk) else b

/-- The C usual-arithmetic conversion of a 32-bit two's-complement bit
pattern (a value below `2^32`) to `unsigned long`: sign-extension modulo
`2^64`. -/
def sext64 (n : Nat) : Nat := if n < 2 ^ 31 then n else 2 ^ 64 - 2 ^ 32 + n

/-- `calc_core_pll_rate` from clk-rp1.c: search `prim_divs` × 1..256 for
the lowest VCO rate at least `16·xosc_rate`; if the best stays under the
2.4 GHz ceiling, re-derive it through the 24-bit feedback-divisor
rounding, else return a zero rate.  `div_int` and `div_frac` are C
`int`s: the conversion from the `u64` quotient, the shift
`div_int << 24` and the addition are 32-bit two's-complement operations,
modelled here as bit patterns (`% 2^32`) sign-extended to 64 bits where
the `int` meets the `unsigned long` multiplication.  (When
`div_int << 24` overflows `int` — a VCO/reference ratio of 128 or more —
the C signed overflow is formally undefined; the model follows the
two's-complement wrap of the compiled AArch64 target.)  Returns
`(core_rate, best_div_prim, best_div_clk)`. -/
def calc_core_pll_rate (xosc_rate target_rate : Nat) : Nat × Nat × Nat :=
  let core_max := 2400000000
  let core_min := xosc_rate * 16
  let best := prim_divs.foldl (primBestStep core_min target_rate) (core_max + 1, 1, 1)
  if best.1 < core_max then
    let div := ((best.1 <<< 24) + xosc_rate / 2) / xosc_rate
    let div_int := (div >>> 24) % M32
    let div_frac := div % (1 <<< 24)
    let core_rate :=
      ((xosc_rate * sext64 (((div_int <<< 24) % M32 + div_frac) % M32) + (1 <<< 23)) % M64)
        >>> 24
    (core_rate, best.2.1, best.2.2)
  else
    (0, best.2.1, best.2.2)

/-- One entry of the global 3-entry `rp1_clk_chg_tree`: the planned node
(`hw` pointer, abstracted to an identifier, `none` for NULL) and its
planned new rate. -/
structure rp1_clk_change where
  hw : Option Nat
  new_rate : Nat
deriving Repr, DecidableEq

/-- Ambient state read (and, in the i2s special case, written) by the
Clock-leaf negotiation: the three `rp1_clk_chg_tree` entries
(most-downstream first), the cached `clk_i2s` / `clk_audio` handles, the
parent of the audio PLL (`clk_hw_get_parent(clk_audio)`), the reference
rate `clk_hw_get_rate(clk_xosc)`, and the live rate
`clk_hw_get_rate` answers for every node id. -/
structure ClkEnv where
  chg0 : rp1_clk_change
  chg1 : rp1_clk_change
  chg2 : rp1_clk_change
  clk_i2s : Option Nat
  clk_audio : Option Nat
  clk_audio_parent : Option Nat
  xosc_rate : Nat
  live_rate : Nat → Nat

/-- The `rp1_clk_chg_tree` scan at the head of
`rp1_clock_choose_div_and_prate`: a matching entry (same node, same
requested rate) yields the planned parent rate — the next entry's rate
when the next entry is this parent, the xosc rate for the last entry —
and a non-matching parent falls through to the next entry (`continue`).
Returns the substituted parent rate, or `none` when no entry applies. -/
def rp1_chg_lookup (env : ClkEnv) (hw parent rate : Nat) : Option Nat :=
  if env.chg0.hw = some hw ∧ env.chg0.new_rate = rate ∧ env.chg1.hw = some parent then
    some env.chg1.new_rate
  else if env.chg1.hw = some hw ∧ env.chg1.new_rate = rate ∧ env.chg2.hw = some parent then
    some env.chg2.new_rate
  else if env.chg2.hw = some hw ∧ env.chg2.new_rate = rate then
    some env.xosc_rate
  else
    none

/-- `rp1_clock_choose_div_and_prate` from clk-rp1.c: a pending change-tree
entry short-circuits with the planned rates; the `clk_i2s`-fed-by-
`clk_audio` special case retunes the whole chain via
`calc_core_pll_rate` and repopulates the change tree; otherwise the live
parent rate is fetched, a divider chosen, the achieved rate re-derived
from the rounded divider, and a result exceeding `max_freq` rejected as
zero (the overclock guard).  Returns the updated ambient state and
`(prate, calc_rate)`. -/
def rp1_clock_choose_div_and_prate (env : ClkEnv) (hw : Nat) (data : rp1_clock_data)
    (parent : Nat) (rate : Nat) : ClkEnv × Nat × Nat :=
  match rp1_chg_lookup env hw parent rate with
  | some prate => (env, prate, rate)
  | none =>
    if some hw = env.clk_i2s ∧ some parent = env.clk_audio then
      let r := calc_core_pll_rate env.xosc_rate rate
      let core_rate := r.1
      let div_prim := r.2.1
      let div_clk := r.2.2
      let audio_rate := divNearest core_rate div_prim
      let i2s_rate := divNearest audio_rate div_clk
      let env' := { env with
        chg2 := { hw := env.clk_audio_parent, new_rate := core_rate }
        chg1 := { hw := env.clk_audio, new_rate := audio_rate }
        chg0 := { hw := env.clk_i2s, new_rate := i2s_rate } }
      (env', audio_rate, i2s_rate)
    else
      let prate := env.live_rate parent
      let div := rp1_clock_choose_div rate prate data
      if div = 0 then (env, prate, 0)
      else
        let tmp := ((prate <<< CLK_DIV_FRAC_BITS) % M64) / div
        if data.max_freq < tmp then (env, prate, 0) else (env, prate, tmp)

/-- The parent-candidate loop of `rp1_clock_determine_rate`: iterate the
declared parents in index order (`none` models a NULL parent lookup,
skipped), track `(best_parent, best_prate, best_rate, best_rate_diff)`
under strict-improvement comparison, and break once the difference
reaches 0.  The ambient state is threaded because the i2s special case
mutates the change tree. -/
def rp1_clock_determine_rate_loop (hw : Nat) (data : rp1_clock_data) (rate : Nat) :
    List (Option Nat) → ClkEnv × Option Nat × Nat × Nat × Nat →
      ClkEnv × Option Nat × Nat × Nat × Nat
  | [], st => st
  | none :: rest, st => rp1_clock_determine_rate_loop hw data rate rest st
  | some parent :: rest, (env, best_parent, best_prate, best_rate, best_rate_diff) =>
    let r := rp1_clock_choose_div_and_prate env hw data parent rate
    if absDiff r.2.2 rate < best_rate_diff then
      if absDiff r.2.2 rate = 0 then (r.1, some parent, r.2.1, r.2.2, 0)
      else rp1_clock_determine_rate_loop hw data rate rest
        (r.1, some parent, r.2.1, r.2.2, absDiff r.2.2 rate)
    else rp1_clock_determine_rate_loop hw data rate rest
      (r.1, best_parent, best_prate, best_rate, best_rate_diff)

/-- The static facts about one Clock leaf that
`rp1_clock_determine_rate` consults: its identity, descriptor data,
declared parent ids in index order (`none` for an unresolvable parent),
the `CLK_SET_RATE_NO_REPARENT` flag, and the current parent index as
decoded from the registers by `rp1_clock_get_parent`. -/
structure rp1_clock_model where
  hw : Nat
  data : rp1_clock_data
  parents : List (Option Nat)
  no_reparent : Bool
  cur_parent_idx : Nat

/-- `rp1_clock_determine_rate` from clk-rp1.c: with
`CLK_SET_RATE_NO_REPARENT` the current parent is tried first and accepted
on a positive achievable rate; otherwise (or on failure) every declared
parent candidate is scanned for the closest achievable rate, and
`-EINVAL` (here `none`) is returned when the final best rate is 0.
On success returns `(chosen parent, chosen parent rate, achievable rate)`. -/
def rp1_clock_determine_rate (env : ClkEnv) (m : rp1_clock_model) (rate : Nat) :
    ClkEnv × Option (Nat × Nat × Nat) :=
  let step1 : ClkEnv × Option (Nat × Nat × Nat) :=
    if m.no_reparent then
      match m.parents.getD m.cur_parent_idx none with
      | some parent =>
        let r := rp1_clock_choose_div_and_prate env m.hw m.data parent rate
        (r.1, if 0 < r.2.2 then some (parent, r.2.1, r.2.2) else none)
      | none => (env, none)
    else (env, none)
  match step1 with
  | (env0, some res) => (env0, some res)
  | (env0, none) =>
    let st := rp1_clock_determine_rate_loop m.hw m.data rate m.parents
      (env0, none, 0, 0, ULONG_MAX)
    if st.2.2.2.1 = 0 then (st.1, none)
    else (st.1, some (st.2.1.getD 0, st.2.2.1, st.2.2.2.1))

/-- The achievable rate of the generic (divider) path of
`rp1_clock_choose_div_and_prate`, as a pure function: live parent rate,
divider, re-derived rate, overclock guard. -/
def pureCalcRate (env : ClkEnv) (data : rp1_clock_data) (parent : Nat) (rate : Nat) : Nat :=
  let prate := env.live_rate parent
  let div := rp1_clock_choose_div rate prate data
  if div = 0 then 0
  else
    let tmp := ((prate <<< CLK_DIV_FRAC_BITS) % M64) / div
    if data.max_freq < tmp then 0 else tmp

/-- No pending change-tree entry names this node at this requested rate. -/
def noPendingChange (env : ClkEnv) (hw rate : Nat) : Prop :=
  (env.chg0.hw ≠ some hw ∨ env.chg0.new_rate ≠ rate) ∧
  (env.chg1.hw ≠ some hw ∨ env.chg1.new_rate ≠ rate) ∧
  (env.chg2.hw ≠ some hw ∨ env.chg2.new_rate ≠ rate)

/-- This (node, parent) pair is not the `clk_i2s` fed by `clk_audio`
special case. -/
def notAudioSpecial (env : ClkEnv) (hw parent : Nat) : Prop :=
  ¬(some hw = env.clk_i2s ∧ some parent = env.clk_audio)

/-- `absDiff` of the pure achievable rate from the requested rate, for a
parent candidate. -/
def pureDiff (env : ClkEnv) (data : rp1_clock_data) (rate : Nat) (parent : Nat) : Nat :=
  absDiff (pureCalcRate env data parent rate) rate

/-- Minimum of `pureDiff` over a candidate list, folded with an initial
value `d`. -/
def pureMinDiffFrom (env : ClkEnv) (data : rp1_clock_data) (rate : Nat)
    (l : List Nat) (d : Nat) : Nat :=
  l.foldr (fun p m => min (pureDiff env data rate p) m) d

/-- An ambient state with an empty change tree and no cached i2s/audio
handles, a 50 MHz reference and all live parents at 200 MHz. -/
def envPure : ClkEnv :=
  { chg0 := ⟨none, 0⟩, chg1 := ⟨none, 0⟩, chg2 := ⟨none, 0⟩
    clk_i2s := none, clk_audio := none, clk_audio_parent := none
    xosc_rate := 50000000, live_rate := fun _ => 200000000 }

/-- A single-parent Clock-leaf model over `envPure` (gp0-style data). -/
def mPure : rp1_clock_model :=
  { hw := 5, data := clk_gp0_data, parents := [some 0], no_reparent := false
    cur_parent_idx := 0 }

/-- An ambient state whose parent 0 runs at 4 Hz and parent 1 at
25500 Hz (empty change tree, no special handles). -/
def envTwoParents : ClkEnv :=
  { chg0 := ⟨none, 0⟩, chg1 := ⟨none, 0⟩, chg2 := ⟨none, 0⟩
    clk_i2s := none, clk_audio := none, clk_audio_parent := none
    xosc_rate := 50000000, live_rate := fun p => if p = 0 then 4 else 25500 }

/-- A two-parent integer-only Clock leaf (8-bit divider, 1 MHz maximum)
over `envTwoParents`. -/
def mTwoParents : rp1_clock_model :=
  { hw := 5
    data := { num_std_parents := 0, num_aux_parents := 2, div_frac_reg := 0
              div_int_max := 0xff, max_freq := 1000000, clk_src_mask := 0 }
    parents := [some 0, some 1], no_reparent := false, cur_parent_idx := 0 }

/-- The ambient state of the i2s chain-retune scenario: node 100 is
`clk_i2s`, node 1 is `clk_audio` (living at 153.6 MHz), node 102 the
audio PLL core, 50 MHz reference; change tree initially empty. -/
def envI2s : ClkEnv :=
  { chg0 := ⟨none, 0⟩, chg1 := ⟨none, 0⟩, chg2 := ⟨none, 0⟩
    clk_i2s := some 100, clk_audio := some 1, clk_audio_parent := some 102
    xosc_rate := 50000000
    live_rate := fun p => if p = 0 then 50000000 else if p = 1 then 153600000 else 0 }

/-- The `clk_i2s` leaf over `envI2s`: parent 0 is xosc, parent 1 is
`pll_audio`, the remaining aux parents unresolvable. -/
def mI2s : rp1_clock_model :=
  { hw := 100, data := clk_i2s_data
    parents := [some 0, some 1, none, none, none, none, none, none, none]
    no_reparent := false, cur_parent_idx := 0 }

/-- Specification-side combination set of claim C4: for every primary
divisor in the table and every secondary divisor 1..256, the VCO products
`target·s·p` meeting the minimum VCO/reference ratio `16·xosc`. -/
def comboList (xosc_rate target_rate : Nat) : List Nat :=
  prim_divs.flatMap (fun p =>
    ((List.range' 1 256).filter (fun s => xosc_rate * 16 ≤ target_rate * s * p)).map
      (fun s => target_rate * s * p))

/-- The minimum satisfying VCO product, folded with the search's initial
value `core_max + 1`. -/
def comboMin (xosc_rate target_rate : Nat) : Nat :=
  (comboList xosc_rate target_rate).foldr min (2400000000 + 1)

/-- The 24-bit feedback-divisor re-derivation applied to a chosen VCO
rate, as the specification words it:
`round(xosc·round(x·2^24/xosc)/2^24)` with the driver's floor-half
roundings. -/
def pllRederive (xosc_rate x : Nat) : Nat :=
  (xosc_rate * ((x * 2 ^ 24 + xosc_rate / 2) / xosc_rate) + 2 ^ 23) / 2 ^ 24

theorem absDiff_comm (a b : Nat) : absDiff a b = absDiff b a := by
  unfold absDiff; split <;> split <;> omega

theorem absDiff_eq_zero {a b : Nat} : absDiff a b = 0 ↔ a = b := by
  unfold absDiff; split <;> omega

section C6

end C6

section C5

theorem minDiffFrom_le_init (rate parent_rate : Nat) (l : List (Nat × Nat)) (d : Nat) :
    minDiffFrom rate parent_rate l d ≤ d := by
  induction l with
  | nil => exact Nat.le_refl d
  | cons p rest ih =>
    exact le_trans (min_le_right _ _) ih

theorem minDiffFrom_min (rate parent_rate : Nat) (l : List (Nat × Nat)) (a b : Nat) :
    minDiffFrom rate parent_rate l (min a b) = min (minDiffFrom rate parent_rate l a) b := by
  induction l with
  | nil => rfl
  | cons p rest ih =>
    show min _ (minDiffFrom rate parent_rate rest (min a b)) = _
    rw [ih, ← min_assoc]
    rfl

theorem minDiffFrom_attained (rate parent_rate : Nat) (l : List (Nat × Nat)) (d : Nat)
    (h : minDiffFrom rate parent_rate l d < d) :
    ∃ q ∈ l, primDiff rate parent_rate q = minDiffFrom rate parent_rate l d := by
  induction l generalizing d with
  | nil => exact absurd h (by simp [minDiffFrom])
  | cons p rest ih =>
    have hcons : minDiffFrom rate parent_rate (p :: rest) d =
        min (primDiff rate parent_rate p) (minDiffFrom rate parent_rate rest d) := rfl
    rcases le_or_lt (primDiff rate parent_rate p) (minDiffFrom rate parent_rate rest d) with hle | hlt
    · exact ⟨p, List.mem_cons_self p rest, by rw [hcons, min_eq_left hle]⟩
    · have hmd : minDiffFrom rate parent_rate (p :: rest) d =
          minDiffFrom rate parent_rate rest d := by rw [hcons, min_eq_right (le_of_lt hlt)]
      rw [hmd] at h ⊢
      obtain ⟨q, hq, hdq⟩ := ih d h
      exact ⟨q, List.mem_cons_of_mem p hq, hdq⟩

/-- Full characterization of the `get_pll_prim_dividers` loop, for any
suffix of the pair list and any running best: the first exact candidate is
returned; otherwise the initial best survives unless some pair's
difference is strictly smaller, in which case the first pair attaining
the (initial-value-capped) minimum difference is returned. -/
theorem primSearch_spec (rate parent_rate : Nat) (l : List (Nat × Nat)) (b : Nat × Nat)
    (bd : Nat) :
    primSearch rate parent_rate l b bd =
      match l.find? (fun p => primCalcRate parent_rate p == rate) with
      | some p => p
      | none =>
        if minDiffFrom rate parent_rate l bd < bd then
          (l.find? (fun p =>
            primDiff rate parent_rate p == minDiffFrom rate parent_rate l bd)).getD b
        else b := by
  induction l generalizing b bd with
  | nil => simp [primSearch, minDiffFrom]
  | cons p rest ih =>
    by_cases hex : primCalcRate parent_rate p = rate
    · have hfind : (p :: rest).find? (fun p => primCalcRate parent_rate p == rate) = some p :=
        List.find?_cons_of_pos _ (by simpa using hex)
      rw [hfind]
      show (if primCalcRate parent_rate p = rate then p else _) = p
      rw [if_pos hex]
    · have hfind : (p :: rest).find? (fun p => primCalcRate parent_rate p == rate) =
          rest.find? (fun p => primCalcRate parent_rate p == rate) :=
        List.find?_cons_of_neg _ (by simpa using hex)
      rw [hfind]
      set dp := primDiff rate parent_rate p with hdp
      have hmd : minDiffFrom rate parent_rate (p :: rest) bd =
          min dp (minDiffFrom rate parent_rate rest bd) := rfl
      have hrun : primSearch rate parent_rate (p :: rest) b bd =
          if dp < bd then primSearch rate parent_rate rest p dp
          else primSearch rate parent_rate rest b bd := by
        show (if primCalcRate parent_rate p = rate then p else _) = _
        rw [if_neg hex]
      rw [hrun]
      by_cases himp : dp < bd
      · rw [if_pos himp, ih]
        have hswap : minDiffFrom rate parent_rate rest dp =
            min dp (minDiffFrom rate parent_rate rest bd) := by
          have h1 : (min bd dp) = dp := min_eq_right (le_of_lt himp)
          have h2 := minDiffFrom_min rate parent_rate rest bd dp
          rw [h1] at h2
          omega
        cases hcase : rest.find? (fun p => primCalcRate parent_rate p == rate) with
        | some q => rfl
        | none =>
          have hmin' : minDiffFrom rate parent_rate (p :: rest) bd < bd := by
            rw [hmd]; exact lt_of_le_of_lt (min_le_left _ _) himp
          rw [if_pos hmin']
          by_cases hbeat : minDiffFrom rate parent_rate rest dp < dp
          · rw [if_pos hbeat]
            have hne : ¬ (dp = minDiffFrom rate parent_rate (p :: rest) bd) := by
              rw [hmd, ← hswap]; omega
            have hfd : (p :: rest).find? (fun q =>
                primDiff rate parent_rate q ==
                  minDiffFrom rate parent_rate (p :: rest) bd) =
                rest.find? (fun q =>
                  primDiff rate parent_rate q ==
                    minDiffFrom rate parent_rate (p :: rest) bd) := by
              refine List.find?_cons_of_neg _ ?_
              simpa [hdp] using hne
            rw [hfd, hmd, ← hswap]
            obtain ⟨q, hq, hdq⟩ := minDiffFrom_attained rate parent_rate rest dp hbeat
            have hs : (rest.find? (fun q =>
                primDiff rate parent_rate q ==
                  minDiffFrom rate parent_rate rest dp)).isSome := by
              refine List.find?_isSome.mpr ⟨q, hq, ?_⟩
              simpa using hdq
            have hsome : ∃ r, rest.find? (fun q =>
                primDiff rate parent_rate q ==
                  minDiffFrom rate parent_rate rest dp) = some r :=
              Option.isSome_iff_exists.mp hs
            obtain ⟨r, hr⟩ := hsome
            rw [hr]
            rfl
          · rw [if_neg hbeat]
            have heq : minDiffFrom rate parent_rate (p :: rest) bd = dp := by
              have h1 := minDiffFrom_le_init rate parent_rate rest dp
              rw [hmd, ← hswap]; omega
            have hfd : (p :: rest).find? (fun q =>
                primDiff rate parent_rate q ==
                  minDiffFrom rate parent_rate (p :: rest) bd) = some p := by
              refine List.find?_cons_of_pos _ ?_
              simp [hdp, heq]
            rw [hfd]
            rfl
      · rw [if_neg himp, ih]
        have hge : bd ≤ dp := le_of_not_lt himp
        have hrle : minDiffFrom rate parent_rate rest bd ≤ bd :=
          minDiffFrom_le_init rate parent_rate rest bd
        have heq : minDiffFrom rate parent_rate (p :: rest) bd =
            minDiffFrom rate parent_rate rest bd := by
          rw [hmd]; omega
        cases hcase : rest.find? (fun p => primCalcRate parent_rate p == rate) with
        | some q => rfl
        | none =>
          rw [heq]
          by_cases hlt : minDiffFrom rate parent_rate rest bd < bd
          · rw [if_pos hlt, if_pos hlt]
            have hne : ¬ (dp = minDiffFrom rate parent_rate rest bd) := by omega
            have hfd : (p :: rest).find? (fun q =>
                primDiff rate parent_rate q ==
                  minDiffFrom rate parent_rate rest bd) =
                rest.find? (fun q =>
                  primDiff rate parent_rate q ==
                    minDiffFrom rate parent_rate rest bd) := by
              refine List.find?_cons_of_neg _ ?_
              simpa [hdp] using hne
            rw [hfd]
          · rw [if_neg hlt, if_neg hlt]

/-- C5 (amended): in `get_pll_prim_dividers` the first exact match in
loop order short-circuits the search and is returned.  Otherwise the best
pair is initialized to (7, 7) with its own candidate difference, and a
later pair replaces it only on a strictly smaller difference; hence the
function returns the first pair in loop order attaining the minimum
difference when that minimum beats the initial (7, 7) difference, and
returns (7, 7) itself whenever the initial (7, 7) difference already
equals the minimum — a pair that merely ties the (7, 7) sentinel never
wins, even if it comes earlier in loop order. -/
theorem c5_prim_dividers (rate parent_rate : Nat) :
    get_pll_prim_dividers rate parent_rate =
      match primPairs.find? (fun p => primCalcRate parent_rate p == rate) with
      | some p => p
      | none =>
        if minDiffFrom rate parent_rate primPairs (absDiff (divNearest parent_rate 49) rate)
            < absDiff (divNearest parent_rate 49) rate then
          (primPairs.find? (fun p =>
            primDiff rate parent_rate p ==
              minDiffFrom rate parent_rate primPairs
                (absDiff (divNearest parent_rate 49) rate))).getD (7, 7)
        else (7, 7) :=
  primSearch_spec rate parent_rate primPairs (7, 7)
    (absDiff (divNearest parent_rate 49) rate)

/-- C5 counterexample: for target 1 and parent rate 74 there is no exact
match, the smallest reachable difference is attained first by (6, 5)
(which precedes (7, 7) in loop order), yet the function returns (7, 7):
"the first pair achieving the smallest difference is returned" fails when
the minimum merely ties the initial (7, 7) candidate. -/
theorem c5_counterexample :
    get_pll_prim_dividers 1 74 = (7, 7) ∧
      primPairs.find? (fun p => primCalcRate 74 p == 1) = none ∧
      primPairs.find? (fun p =>
        primDiff 1 74 p == minDiffFrom 1 74 primPairs (primDiff 1 74 (7, 7))) =
          some (6, 5) ∧
      absDiff (divNearest 74 49) 1 = minDiffFrom 1 74 primPairs (primDiff 1 74 (7, 7)) ∧
      ((6, 5) : Nat × Nat) ≠ (7, 7) := by
  refine ⟨by decide, by decide, by decide, by decide, by decide⟩

end C5

section C7

/-- C7: for every (target, parent_rate) pair with nonzero parent rate,
whenever `rp1_pll_core_set_rate` completes (its `BUG_ON` invariant check
passes and it caches an achieved rate), the cached achieved rate is
exactly what `rp1_pll_core_round_rate` returns for the same pair — both
re-derive the rate from the same 24-bit-rounded feedback divisor through
`get_pll_core_divider`, not from the raw target. -/
theorem c7_round_set_agree (rate parent_rate : Nat) (hp : parent_rate ≠ 0)
    (c : Nat) (h : rp1_pll_core_set_rate rate parent_rate = some c) :
    rp1_pll_core_round_rate rate parent_rate = c := by
  unfold rp1_pll_core_set_rate at h
  unfold rp1_pll_core_round_rate
  by_cases hb : parent_rate > rate / 16
  · simp [hb] at h
  · simp only [if_neg hb, Option.some.injEq] at h
    exact h

/-- Witness for `c7_round_set_agree`: a 50 MHz reference tuned to a
1 GHz VCO target; set_rate caches exactly 1 GHz and round_rate agrees. -/
theorem c7_round_set_agree_witness :
    rp1_pll_core_round_rate 1000000000 50000000 = 1000000000 :=
  c7_round_set_agree 1000000000 50000000 (by decide) 1000000000 (by decide)

end C7

section C9

end C9

section C10

/-- C10: `rp1_pll_core_is_on` reports true exactly when `PLL_PWR_PD` or
`PLL_PWR_POSTDIVPD` is set in the power register; after
`rp1_pll_core_off` (which writes 0 to the power register) it reports
false, and after `rp1_pll_core_on` on a locked PLL with a nonzero
fractional divisor programmed (which also writes 0 to the power
register) it likewise reports false — the report is the inverse of the
physical powered-up state. -/
theorem c10_pll_core_power :
    (∀ regs : PllCoreRegs, rp1_pll_core_is_on regs = true ↔
      (regs.pwr &&& PLL_PWR_PD ≠ 0 ∨ regs.pwr &&& PLL_PWR_POSTDIVPD ≠ 0)) ∧
    (∀ regs : PllCoreRegs, rp1_pll_core_is_on (rp1_pll_core_off regs) = false) ∧
    (∀ regs : PllCoreRegs, regs.cs &&& PLL_CS_LOCK ≠ 0 → regs.fbdiv_frac ≠ 0 →
      (rp1_pll_core_on regs).pwr = 0 ∧
        rp1_pll_core_is_on (rp1_pll_core_on regs) = false) := by
  refine ⟨?_, ?_, ?_⟩
  · intro regs
    simp [rp1_pll_core_is_on]
  · intro regs
    simp [rp1_pll_core_is_on, rp1_pll_core_off]
  · intro regs h1 h2
    have hon : rp1_pll_core_on regs = { regs with pwr := 0 } := by
      simp [rp1_pll_core_on, h1, h2]
    rw [hon]
    exact ⟨rfl, by simp [rp1_pll_core_is_on]⟩

/-- Witness for `c10_pll_core_power`: a locked PLL core (CS bit 31 set)
with fractional divisor 5 programmed; enabling writes power word 0 and
`is_on` then reports false. -/
theorem c10_pll_core_power_witness :
    (rp1_pll_core_on ⟨0x80000000, 0x3f, 20, 5⟩).pwr = 0 ∧
      rp1_pll_core_is_on (rp1_pll_core_on ⟨0x80000000, 0x3f, 20, 5⟩) = false :=
  c10_pll_core_power.2.2 ⟨0x80000000, 0x3f, 20, 5⟩ (by decide) (by decide)

end C10

section C3

/-- C3: on the invalid-index path (`index ≥ num_std_parents +
num_aux_parents`, here index 9 on `clk_i2s` whose 9 parents occupy
indices 0–8) `rp1_clock_set_parent` rejects with `-EINVAL` and leaves
the CTRL register unmodified, but returns with `regs_lock` still held —
the `spin_unlock` is skipped on this early return, contradicting the
lock discipline the specification requires.  A valid aux index (3) by
contrast writes CTRL and releases the lock. -/
theorem c3_set_parent_lock_leak :
    rp1_clock_set_parent clk_i2s_data 9 { locked := false, ctrl := 0x123 } =
      (-22, { locked := true, ctrl := 0x123 }) ∧
    clk_i2s_data.num_std_parents + clk_i2s_data.num_aux_parents ≤ 9 ∧
    ((rp1_clock_set_parent clk_i2s_data 3 { locked := false, ctrl := 0x123 }).1 = 0 ∧
      (rp1_clock_set_parent clk_i2s_data 3 { locked := false, ctrl := 0x123 }).2.locked =
        false) := by
  refine ⟨by decide, by decide, by decide, by decide⟩

end C3

section C8

theorem pollClear_none (status : Nat → Nat) (mask : Nat)
    (h : ∀ k, status k &&& mask ≠ 0) :
    ∀ fuel k, pollClear status mask k fuel = none := by
  intro fuel
  induction fuel with
  | zero => intro k; unfold pollClear; rw [if_neg (h k)]
  | succ n ih => intro k; unfold pollClear; rw [if_neg (h k)]; exact ih (k + 1)

theorem pollSet_none (status : Nat → Nat) (mask : Nat)
    (h : ∀ k, status k &&& mask = 0) :
    ∀ fuel k, pollSet status mask k fuel = none := by
  intro fuel
  induction fuel with
  | zero =>
    intro k; unfold pollSet
    rw [if_neg (by simpa using h k)]
  | succ n ih =>
    intro k; unfold pollSet
    rw [if_neg (by simpa using h k)]
    exact ih (k + 1)

/-- C8: `clockman_measure_clock` always terminates (it is a total
function of its poll fuel, one unit per iteration of the 100 ms-bounded
busy-waits) and returns 0 rather than hanging whenever the RUNNING bit
never clears within the timeout, or the DONE bit never sets within the
timeout; and when the decoded source index (`fc0_src % 32`) is 0 —
reserved/invalid — it returns 0 without performing a single register
write. -/
theorem c8_measure_bounded (status : Nat → Nat) (result_val ref_khz fuel fc0_src : Nat) :
    (fc0_src % 32 = 0 →
      clockman_measure_clock status result_val ref_khz fuel fc0_src = (0, [])) ∧
    ((∀ k, status k &&& FC0_STATUS_RUNNING ≠ 0) →
      clockman_measure_clock status result_val ref_khz fuel fc0_src = (0, [])) ∧
    ((∀ k, status k &&& FC0_STATUS_DONE = 0) →
      (clockman_measure_clock status result_val ref_khz fuel fc0_src).1 = 0) := by
  refine ⟨?_, ?_, ?_⟩
  · intro h
    unfold clockman_measure_clock
    rw [if_pos (Or.inl h)]
  · intro h
    unfold clockman_measure_clock
    by_cases hv : fc0_src % 32 = 0 ∨ FC_COUNT ≤ fc0_src / 32
    · rw [if_pos hv]
    · rw [if_neg hv, pollClear_none status FC0_STATUS_RUNNING h fuel 0]
  · intro h
    unfold clockman_measure_clock
    by_cases hv : fc0_src % 32 = 0 ∨ FC_COUNT ≤ fc0_src / 32
    · rw [if_pos hv]
    · rw [if_neg hv]
      cases hpc : pollClear status FC0_STATUS_RUNNING 0 fuel with
      | none => rfl
      | some k =>
        simp [pollSet_none status FC0_STATUS_DONE h]

/-- Witness for `c8_measure_bounded`: counter 1 (fc0_src 33, source
index 1): hardware stuck RUNNING gives (0, no-writes-after-timeout...
result 0); a reserved source index 0 gives (0, []); hardware that never
sets DONE gives result 0. -/
theorem c8_measure_bounded_witness :
    clockman_measure_clock (fun _ => 0x100) 12345 50000 3 33 = (0, []) ∧
      clockman_measure_clock (fun _ => 0) 12345 50000 3 0 = (0, []) ∧
      (clockman_measure_clock (fun _ => 0) 12345 50000 3 33).1 = 0 :=
  ⟨(c8_measure_bounded (fun _ => 0x100) 12345 50000 3 33).2.1 (fun k => by decide),
   (c8_measure_bounded (fun _ => 0) 12345 50000 3 0).1 (by decide),
   (c8_measure_bounded (fun _ => 0) 12345 50000 3 33).2.2 (fun k => by decide)⟩

end C8

section C1C2

theorem pureMinDiffFrom_le_init (env : ClkEnv) (data : rp1_clock_data) (rate : Nat)
    (l : List Nat) (d : Nat) : pureMinDiffFrom env data rate l d ≤ d := by
  induction l with
  | nil => exact Nat.le_refl d
  | cons p rest ih => exact le_trans (min_le_right _ _) ih

theorem pureMinDiffFrom_min (env : ClkEnv) (data : rp1_clock_data) (rate : Nat)
    (l : List Nat) (a b : Nat) :
    pureMinDiffFrom env data rate l (min a b) = min (pureMinDiffFrom env data rate l a) b := by
  induction l with
  | nil => rfl
  | cons p rest ih =>
    show min _ (pureMinDiffFrom env data rate rest (min a b)) = _
    rw [ih, ← min_assoc]
    rfl

theorem pureMinDiffFrom_attained (env : ClkEnv) (data : rp1_clock_data) (rate : Nat)
    (l : List Nat) (d : Nat) (h : pureMinDiffFrom env data rate l d < d) :
    ∃ q ∈ l, pureDiff env data rate q = pureMinDiffFrom env data rate l d := by
  induction l generalizing d with
  | nil => exact absurd h (by simp [pureMinDiffFrom])
  | cons p rest ih =>
    have hcons : pureMinDiffFrom env data rate (p :: rest) d =
        min (pureDiff env data rate p) (pureMinDiffFrom env data rate rest d) := rfl
    rcases le_or_lt (pureDiff env data rate p) (pureMinDiffFrom env data rate rest d) with
      hle | hlt
    · exact ⟨p, List.mem_cons_self p rest, by rw [hcons, min_eq_left hle]⟩
    · have hmd : pureMinDiffFrom env data rate (p :: rest) d =
          pureMinDiffFrom env data rate rest d := by rw [hcons, min_eq_right (le_of_lt hlt)]
      rw [hmd] at h ⊢
      obtain ⟨q, hq, hdq⟩ := ih d h
      exact ⟨q, List.mem_cons_of_mem p hq, hdq⟩

theorem chg_lookup_none (env : ClkEnv) (hw parent rate : Nat)
    (h : noPendingChange env hw rate) :
    rp1_chg_lookup env hw parent rate = none := by
  obtain ⟨h0, h1, h2⟩ := h
  unfold rp1_chg_lookup
  rw [if_neg (by tauto), if_neg (by tauto), if_neg (by tauto)]

/-- On the generic path (no pending change-tree entry, not the i2s/audio
special case) `rp1_clock_choose_div_and_prate` leaves the ambient state
unchanged and computes the pure achievable rate. -/
theorem choose_div_and_prate_pure (env : ClkEnv) (hw : Nat) (data : rp1_clock_data)
    (parent rate : Nat) (hP : noPendingChange env hw rate)
    (hA : notAudioSpecial env hw parent) :
    rp1_clock_choose_div_and_prate env hw data parent rate =
      (env, env.live_rate parent, pureCalcRate env data parent rate) := by
  unfold rp1_clock_choose_div_and_prate pureCalcRate
  rw [chg_lookup_none env hw parent rate hP]
  rw [if_neg hA]
  by_cases hdiv : rp1_clock_choose_div rate (env.live_rate parent) data = 0
  · simp [hdiv]
  · simp only [hdiv, if_neg]
    by_cases hmax :
        data.max_freq < ((env.live_rate parent <<< CLK_DIV_FRAC_BITS) % M64) /
          rp1_clock_choose_div rate (env.live_rate parent) data
    · simp [hmax]
    · simp [hmax]

theorem pureCalcRate_le (env : ClkEnv) (data : rp1_clock_data) (parent rate : Nat) :
    pureCalcRate env data parent rate ≤ data.max_freq := by
  simp only [pureCalcRate]
  split
  · exact Nat.zero_le _
  · split
    · exact Nat.zero_le _
    · omega

/-- Characterization of the parent-candidate loop of
`rp1_clock_determine_rate` when no special path can trigger: the
ambient state is unchanged, and the final state keeps the initial best
unless some present candidate's difference strictly beats it, in which
case the first candidate attaining the (capped) minimum difference
wins. -/
theorem detLoop_spec (env : ClkEnv) (hw : Nat) (data : rp1_clock_data) (rate : Nat)
    (hP : noPendingChange env hw rate) :
    ∀ (l : List (Option Nat)), (∀ p, some p ∈ l → notAudioSpecial env hw p) →
    ∀ (bp : Option Nat) (bpr br bd : Nat),
    rp1_clock_determine_rate_loop hw data rate l (env, bp, bpr, br, bd) =
      (if pureMinDiffFrom env data rate (l.filterMap id) bd < bd then
        match (l.filterMap id).find? (fun p =>
            pureDiff env data rate p ==
              pureMinDiffFrom env data rate (l.filterMap id) bd) with
        | some c =>
          (env, some c, env.live_rate c, pureCalcRate env data c rate,
            pureDiff env data rate c)
        | none => (env, bp, bpr, br, bd)
      else (env, bp, bpr, br, bd)) := by
  intro l
  induction l with
  | nil =>
    intro _ bp bpr br bd
    simp [rp1_clock_determine_rate_loop, pureMinDiffFrom]
  | cons hd rest ih =>
    intro hA bp bpr br bd
    cases hd with
    | none =>
      have hA' : ∀ p, some p ∈ rest → notAudioSpecial env hw p :=
        fun p hp => hA p (List.mem_cons_of_mem none hp)
      show rp1_clock_determine_rate_loop hw data rate rest (env, bp, bpr, br, bd) = _
      rw [ih hA' bp bpr br bd]
      rfl
    | some p =>
      have hA' : ∀ q, some q ∈ rest → notAudioSpecial env hw q :=
        fun q hq => hA q (List.mem_cons_of_mem (some p) hq)
      have hAp : notAudioSpecial env hw p := hA p (List.mem_cons_self _ _)
      have hfm : (some p :: rest).filterMap (@id (Option Nat)) = p :: rest.filterMap id := by
        simp
      set dp := pureDiff env data rate p with hdp
      have hstep : rp1_clock_determine_rate_loop hw data rate (some p :: rest)
          (env, bp, bpr, br, bd) =
          (if dp < bd then
            if dp = 0 then
              (env, some p, env.live_rate p, pureCalcRate env data p rate, 0)
            else rp1_clock_determine_rate_loop hw data rate rest
              (env, some p, env.live_rate p, pureCalcRate env data p rate, dp)
          else rp1_clock_determine_rate_loop hw data rate rest (env, bp, bpr, br, bd)) := by
        simp only [rp1_clock_determine_rate_loop]
        rw [choose_div_and_prate_pure env hw data p rate hP hAp]
        rfl
      rw [hstep, hfm]
      have hmd : pureMinDiffFrom env data rate (p :: rest.filterMap id) bd =
          min dp (pureMinDiffFrom env data rate (rest.filterMap id) bd) := rfl
      by_cases himp : dp < bd
      · rw [if_pos himp]
        have hswap : pureMinDiffFrom env data rate (rest.filterMap id) dp =
            min dp (pureMinDiffFrom env data rate (rest.filterMap id) bd) := by
          have h1 : (min bd dp) = dp := min_eq_right (le_of_lt himp)
          have h2 := pureMinDiffFrom_min env data rate (rest.filterMap id) bd dp
          rw [h1] at h2
          omega
        have hminlt : pureMinDiffFrom env data rate (p :: rest.filterMap id) bd < bd := by
          rw [hmd]; exact lt_of_le_of_lt (min_le_left _ _) himp
        rw [if_pos hminlt]
        by_cases hz : dp = 0
        · rw [if_pos hz]
          have hm0 : pureMinDiffFrom env data rate (p :: rest.filterMap id) bd = dp := by
            rw [hmd]; omega
          have hfd : (p :: rest.filterMap id).find? (fun q =>
              pureDiff env data rate q ==
                pureMinDiffFrom env data rate (p :: rest.filterMap id) bd) = some p := by
            refine List.find?_cons_of_pos _ ?_
            simp [hdp, hm0]
          rw [hfd]
          have hdz : pureDiff env data rate p = 0 := by rw [← hdp]; exact hz
          simp [hdz]
        · rw [if_neg hz]
          rw [ih hA' (some p) (env.live_rate p) (pureCalcRate env data p rate) dp]
          by_cases hbeat : pureMinDiffFrom env data rate (rest.filterMap id) dp < dp
          · rw [if_pos hbeat]
            have hne : ¬ (dp = pureMinDiffFrom env data rate (p :: rest.filterMap id) bd) := by
              rw [hmd, ← hswap]; omega
            have hfd : (p :: rest.filterMap id).find? (fun q =>
                pureDiff env data rate q ==
                  pureMinDiffFrom env data rate (p :: rest.filterMap id) bd) =
                (rest.filterMap id).find? (fun q =>
                  pureDiff env data rate q ==
                    pureMinDiffFrom env data rate (p :: rest.filterMap id) bd) := by
              refine List.find?_cons_of_neg _ ?_
              simpa [hdp] using hne
            rw [hfd, hmd, ← hswap]
            obtain ⟨q, hq, hdq⟩ := pureMinDiffFrom_attained env data rate
              (rest.filterMap id) dp hbeat
            have hs : ((rest.filterMap id).find? (fun q =>
                pureDiff env data rate q ==
                  pureMinDiffFrom env data rate (rest.filterMap id) dp)).isSome := by
              refine List.find?_isSome.mpr ⟨q, hq, ?_⟩
              simpa using hdq
            obtain ⟨r, hr⟩ := Option.isSome_iff_exists.mp hs
            rw [hr]
          · rw [if_neg hbeat]
            have heq : pureMinDiffFrom env data rate (p :: rest.filterMap id) bd = dp := by
              have h1 := pureMinDiffFrom_le_init env data rate (rest.filterMap id) dp
              rw [hmd, ← hswap]; omega
            have hfd : (p :: rest.filterMap id).find? (fun q =>
                pureDiff env data rate q ==
                  pureMinDiffFrom env data rate (p :: rest.filterMap id) bd) = some p := by
              refine List.find?_cons_of_pos _ ?_
              simp [hdp, heq]
            rw [hfd]
      · rw [if_neg himp]
        rw [ih hA' bp bpr br bd]
        have hge : bd ≤ dp := le_of_not_lt himp
        have hrle : pureMinDiffFrom env data rate (rest.filterMap id) bd ≤ bd :=
          pureMinDiffFrom_le_init env data rate (rest.filterMap id) bd
        have heq : pureMinDiffFrom env data rate (p :: rest.filterMap id) bd =
            pureMinDiffFrom env data rate (rest.filterMap id) bd := by
          rw [hmd]; omega
        rw [heq]
        by_cases hlt : pureMinDiffFrom env data rate (rest.filterMap id) bd < bd
        · rw [if_pos hlt, if_pos hlt]
          have hne : ¬ (dp = pureMinDiffFrom env data rate (rest.filterMap id) bd) := by
            omega
          have hfd : (p :: rest.filterMap id).find? (fun q =>
              pureDiff env data rate q ==
                pureMinDiffFrom env data rate (rest.filterMap id) bd) =
              (rest.filterMap id).find? (fun q =>
                pureDiff env data rate q ==
                  pureMinDiffFrom env data rate (rest.filterMap id) bd) := by
            refine List.find?_cons_of_neg _ ?_
            simpa [hdp] using hne
          rw [hfd]
        · rw [if_neg hlt, if_neg hlt]

end C1C2

section C2Main

theorem getD_some_mem {l : List (Option Nat)} {i : Nat} {p : Nat}
    (h : l.getD i none = some p) : some p ∈ l := by
  induction l generalizing i with
  | nil => simp [List.getD] at h
  | cons a rest ih =>
    cases i with
    | zero =>
      have ha : a = some p := h
      rw [ha]
      exact List.mem_cons_self _ _
    | succ n =>
      exact List.mem_cons_of_mem a (ih (i := n) h)

/-- C2 (amended): for a Clock node not marked no-reparent, with no
pending change-tree entry for this (node, rate) and no parent candidate
triggering the i2s/audio chain-retune, `rp1_clock_determine_rate` leaves
the ambient state unchanged and behaves as follows: every resolvable
parent candidate participates in the minimization of
`|achievable − target|` — a candidate whose achievable rate is zero
participates with error `|0 − target|` — the scan keeps the first
(lowest-index) candidate on ties and stops early on an exact match, and
the request fails exactly when the winning candidate's achievable rate
is zero (in particular, but not only, when every candidate yields
zero), or when no candidate exists. -/
theorem c2_determine_rate (env : ClkEnv) (m : rp1_clock_model) (rate : Nat)
    (hnr : m.no_reparent = false)
    (hP : noPendingChange env m.hw rate)
    (hA : ∀ p, some p ∈ m.parents → notAudioSpecial env m.hw p) :
    rp1_clock_determine_rate env m rate =
      (env,
       if pureMinDiffFrom env m.data rate (m.parents.filterMap id) ULONG_MAX < ULONG_MAX then
         match (m.parents.filterMap id).find? (fun p =>
             pureDiff env m.data rate p ==
               pureMinDiffFrom env m.data rate (m.parents.filterMap id) ULONG_MAX) with
         | some c =>
           if pureCalcRate env m.data c rate = 0 then none
           else some (c, env.live_rate c, pureCalcRate env m.data c rate)
         | none => none
       else none) := by
  unfold rp1_clock_determine_rate
  rw [hnr]
  simp only [Bool.false_eq_true, if_false]
  rw [detLoop_spec env m.hw m.data rate hP m.parents hA none 0 0 ULONG_MAX]
  by_cases hmin :
      pureMinDiffFrom env m.data rate (m.parents.filterMap id) ULONG_MAX < ULONG_MAX
  · rw [if_pos hmin, if_pos hmin]
    cases hfind : (m.parents.filterMap id).find? (fun p =>
        pureDiff env m.data rate p ==
          pureMinDiffFrom env m.data rate (m.parents.filterMap id) ULONG_MAX) with
    | none => rfl
    | some c =>
      by_cases hc0 : pureCalcRate env m.data c rate = 0
      · simp only [hc0]
        have hdz : pureDiff env m.data rate c = absDiff 0 rate := by
          rw [pureDiff, hc0]
        simp [hdz, hc0]
      · simp [hc0]
  · rw [if_neg hmin, if_neg hmin]
    rfl

/-- Witness for `c2_determine_rate`: a single 200 MHz parent, gp0-style
fractional leaf, 100 MHz target. -/
theorem c2_determine_rate_witness :
    rp1_clock_determine_rate envPure mPure 100000000 =
      (envPure,
       if pureMinDiffFrom envPure mPure.data 100000000 (mPure.parents.filterMap id)
           ULONG_MAX < ULONG_MAX then
         match (mPure.parents.filterMap id).find? (fun p =>
             pureDiff envPure mPure.data 100000000 p ==
               pureMinDiffFrom envPure mPure.data 100000000 (mPure.parents.filterMap id)
                 ULONG_MAX) with
         | some c =>
           if pureCalcRate envPure mPure.data c 100000000 = 0 then none
           else some (c, envPure.live_rate c, pureCalcRate envPure mPure.data c 100000000)
         | none => none
       else none) :=
  c2_determine_rate envPure mPure 100000000 rfl
    ⟨Or.inl (by decide), Or.inl (by decide), Or.inl (by decide)⟩
    (fun p _ h => absurd h.1 (by decide))

/-- C2 counterexample: the claim "it fails only when every parent
candidate yields an achievable rate of zero" is false.  Target 10 Hz on
an integer-only leaf with parents at 4 Hz (yields 0, error 10) and
25500 Hz (yields 100 — nonzero — with error 90): the zero candidate wins
the strict minimization, `best_rate` stays 0 and `determine_rate`
returns `-EINVAL` although a candidate with a nonzero achievable rate
exists. -/
theorem c2_counterexample :
    (rp1_clock_determine_rate envTwoParents mTwoParents 10).2 = none ∧
      pureCalcRate envTwoParents mTwoParents.data 1 10 = 100 ∧ (100 : Nat) ≠ 0 ∧
      pureCalcRate envTwoParents mTwoParents.data 0 10 = 0 := by
  refine ⟨by decide, by decide, by decide, by decide⟩

end C2Main

section C1Main

/-- Along the candidate loop, the best rate never exceeds `max_freq`
when no special path can trigger (the guard of the generic path bounds
every update). -/
theorem detLoop_br_le (env : ClkEnv) (hw : Nat) (data : rp1_clock_data) (rate : Nat)
    (hP : noPendingChange env hw rate) :
    ∀ (l : List (Option Nat)), (∀ p, some p ∈ l → notAudioSpecial env hw p) →
    ∀ (bp : Option Nat) (bpr br bd : Nat), br ≤ data.max_freq →
    (rp1_clock_determine_rate_loop hw data rate l (env, bp, bpr, br, bd)).2.2.2.1 ≤
      data.max_freq := by
  intro l
  induction l with
  | nil => intro _ bp bpr br bd hbr; exact hbr
  | cons hd rest ih =>
    intro hA bp bpr br bd hbr
    cases hd with
    | none => exact ih (fun p hp => hA p (List.mem_cons_of_mem none hp)) bp bpr br bd hbr
    | some p =>
      have hAp := hA p (List.mem_cons_self _ _)
      have hA' := fun q hq => hA q (List.mem_cons_of_mem (some p) hq)
      simp only [rp1_clock_determine_rate_loop]
      rw [choose_div_and_prate_pure env hw data p rate hP hAp]
      dsimp only
      split
      · split
        · exact pureCalcRate_le env data p rate
        · exact ih hA' _ _ _ _ (pureCalcRate_le env data p rate)
      · exact ih hA' bp bpr br bd hbr

/-- Along the candidate loop, if every present candidate's guarded
achievable rate is zero, a zero best rate stays zero. -/
theorem detLoop_br_zero (env : ClkEnv) (hw : Nat) (data : rp1_clock_data) (rate : Nat)
    (hP : noPendingChange env hw rate) :
    ∀ (l : List (Option Nat)), (∀ p, some p ∈ l → notAudioSpecial env hw p) →
    (∀ p, some p ∈ l → pureCalcRate env data p rate = 0) →
    ∀ (bp : Option Nat) (bpr bd : Nat),
    (rp1_clock_determine_rate_loop hw data rate l (env, bp, bpr, 0, bd)).2.2.2.1 = 0 := by
  intro l
  induction l with
  | nil => intro _ _ bp bpr bd; rfl
  | cons hd rest ih =>
    intro hA hZ bp bpr bd
    cases hd with
    | none =>
      exact ih (fun p hp => hA p (List.mem_cons_of_mem none hp))
        (fun p hp => hZ p (List.mem_cons_of_mem none hp)) bp bpr bd
    | some p =>
      have hAp := hA p (List.mem_cons_self _ _)
      have hzp := hZ p (List.mem_cons_self _ _)
      have hA' := fun q hq => hA q (List.mem_cons_of_mem (some p) hq)
      have hZ' := fun q hq => hZ q (List.mem_cons_of_mem (some p) hq)
      simp only [rp1_clock_determine_rate_loop]
      rw [choose_div_and_prate_pure env hw data p rate hP hAp]
      dsimp only
      rw [hzp]
      split
      · split
        · rfl
        · exact ih hA' hZ' _ _ _
      · exact ih hA' hZ' bp bpr bd

/-- The tail of `rp1_clock_determine_rate`: a successful result carries
exactly the loop's final best rate. -/
theorem after_loop_some (st : ClkEnv × Option Nat × Nat × Nat × Nat)
    (res : Nat × Nat × Nat)
    (h : (if st.2.2.2.1 = 0 then (st.1, (none : Option (Nat × Nat × Nat)))
          else (st.1, some (st.2.1.getD 0, st.2.2.1, st.2.2.2.1))).2 = some res) :
    res.2.2 = st.2.2.2.1 := by
  by_cases hz : st.2.2.2.1 = 0
  · rw [if_pos hz] at h
    exact absurd h (by simp)
  · rw [if_neg hz] at h
    have h' : some (st.2.1.getD 0, st.2.2.1, st.2.2.2.1) = some res := h
    cases Option.some.inj h'
    rfl

/-- The tail of `rp1_clock_determine_rate`: a zero loop best rate means
`-EINVAL`. -/
theorem after_loop_zero (st : ClkEnv × Option Nat × Nat × Nat × Nat)
    (hz : st.2.2.2.1 = 0) :
    (if st.2.2.2.1 = 0 then (st.1, (none : Option (Nat × Nat × Nat)))
     else (st.1, some (st.2.1.getD 0, st.2.2.1, st.2.2.2.1))).2 = none := by
  rw [if_pos hz]

/-- C1 (amended): the overclock guard holds on the divider path: whenever
`rp1_clock_choose_div_and_prate` falls through to computing a divider
(no pending change-tree entry matches this node and rate, and this is
not the `clk_i2s`-fed-by-`clk_audio` special case), the achievable rate
it reports never exceeds the node's `max_freq` (a rate recomputed from
the rounded divider above `max_freq` is replaced by zero).
Consequently, for a node on which no special path can trigger,
`rp1_clock_determine_rate` never reports a rate above `max_freq`, and a
request for which every resolvable parent yields a guarded rate of zero
fails with an error.  (The special i2s/audio chain-retune path bypasses
the guard: see the counterexample.) -/
theorem c1_overclock_guard :
    (∀ (env : ClkEnv) (hw : Nat) (data : rp1_clock_data) (parent rate : Nat),
      noPendingChange env hw rate → notAudioSpecial env hw parent →
      (rp1_clock_choose_div_and_prate env hw data parent rate).2.2 ≤ data.max_freq) ∧
    (∀ (env : ClkEnv) (m : rp1_clock_model) (rate : Nat),
      noPendingChange env m.hw rate →
      (∀ p, some p ∈ m.parents → notAudioSpecial env m.hw p) →
      (∀ res, (rp1_clock_determine_rate env m rate).2 = some res →
        res.2.2 ≤ m.data.max_freq) ∧
      ((∀ p, some p ∈ m.parents → pureCalcRate env m.data p rate = 0) →
        (rp1_clock_determine_rate env m rate).2 = none)) := by
  constructor
  · intro env hw data parent rate hP hA
    rw [choose_div_and_prate_pure env hw data parent rate hP hA]
    exact pureCalcRate_le env data parent rate
  · intro env m rate hP hA
    constructor
    · intro res hres
      unfold rp1_clock_determine_rate at hres
      cases hnr : m.no_reparent with
      | false =>
        rw [hnr] at hres
        simp only [Bool.false_eq_true, if_false] at hres
        rw [after_loop_some _ res hres]
        exact detLoop_br_le env m.hw m.data rate hP m.parents hA none 0 0 ULONG_MAX
          (Nat.zero_le _)
      | true =>
        rw [hnr] at hres
        rw [if_pos rfl] at hres
        rcases hgd : m.parents.getD m.cur_parent_idx none with _ | parent
        · rw [hgd] at hres
          rw [after_loop_some _ res hres]
          exact detLoop_br_le env m.hw m.data rate hP m.parents hA none 0 0 ULONG_MAX
            (Nat.zero_le _)
        · rw [hgd] at hres
          dsimp only at hres
          rw [choose_div_and_prate_pure env m.hw m.data parent rate hP
            (hA parent (getD_some_mem hgd))] at hres
          dsimp only at hres
          by_cases hpos : 0 < pureCalcRate env m.data parent rate
          · rw [if_pos hpos] at hres
            have h' : some (parent, env.live_rate parent,
                pureCalcRate env m.data parent rate) = some res := hres
            cases Option.some.inj h'
            exact pureCalcRate_le env m.data parent rate
          · rw [if_neg hpos] at hres
            rw [after_loop_some _ res hres]
            exact detLoop_br_le env m.hw m.data rate hP m.parents hA none 0 0 ULONG_MAX
              (Nat.zero_le _)
    · intro hZ
      unfold rp1_clock_determine_rate
      cases hnr : m.no_reparent with
      | false =>
        simp only [Bool.false_eq_true, if_false]
        exact after_loop_zero _
          (detLoop_br_zero env m.hw m.data rate hP m.parents hA hZ none 0 ULONG_MAX)
      | true =>
        rw [if_pos rfl]
        rcases hgd : m.parents.getD m.cur_parent_idx none with _ | parent
        · exact after_loop_zero _
            (detLoop_br_zero env m.hw m.data rate hP m.parents hA hZ none 0 ULONG_MAX)
        · dsimp only
          rw [choose_div_and_prate_pure env m.hw m.data parent rate hP
            (hA parent (getD_some_mem hgd))]
          dsimp only
          rw [if_neg (by rw [hZ parent (getD_some_mem hgd)]; exact lt_irrefl 0)]
          exact after_loop_zero _
            (detLoop_br_zero env m.hw m.data rate hP m.parents hA hZ none 0 ULONG_MAX)

/-- Witness for `c1_overclock_guard`: requesting 160 MHz on a gp0-style
leaf capped at 76.8 MHz from a 200 MHz parent is rejected (rate reported
0, hence within the cap). -/
theorem c1_overclock_guard_witness :
    (rp1_clock_choose_div_and_prate envPure 5 clk_gp0_data 0 160000000).2.2 ≤
      clk_gp0_data.max_freq :=
  c1_overclock_guard.1 envPure 5 clk_gp0_data 0 160000000
    ⟨Or.inl (by decide), Or.inl (by decide), Or.inl (by decide)⟩
    (fun h => absurd h.1 (by decide))

/-- C1 counterexample: on `clk_i2s` (max_freq 50 MHz) a 100 MHz request
with `pll_audio` among the parents triggers the chain-retune special
case, which returns the planned 100 MHz i2s rate without any `max_freq`
check: `determine_rate` reports 100 MHz — above the node's configured
maximum — instead of failing. -/
theorem c1_counterexample :
    (rp1_clock_determine_rate envI2s mI2s 100000000).2 =
      some (1, 400000000, 100000000) ∧
      mI2s.data.max_freq < 100000000 := by
  refine ⟨by decide, by decide⟩

end C1Main

section C4

theorem if_lt_eq_min (v b : Nat) : (if v < b then v else b) = min v b := by
  split <;> omega

theorem foldr_min_min (l : List Nat) (a b : Nat) :
    l.foldr min (min a b) = min (l.foldr min a) b := by
  induction l with
  | nil => rfl
  | cons x rest ih =>
    show min x (rest.foldr min (min a b)) = min (min x (rest.foldr min a)) b
    rw [ih]
    omega

theorem foldr_min_lt_mem (l : List Nat) (d : Nat) (h : l.foldr min d < d) :
    l.foldr min d ∈ l := by
  induction l with
  | nil => exact absurd h (lt_irrefl d)
  | cons a rest ih =>
    show min a (rest.foldr min d) ∈ a :: rest
    by_cases haf : a ≤ rest.foldr min d
    · rw [min_eq_left haf]
      exact List.mem_cons_self _ _
    · rw [min_eq_right (le_of_not_le haf)]
      have h' : rest.foldr min d < d := by
        have : min a (rest.foldr min d) < d := h
        omega
      exact List.mem_cons_of_mem a (ih h')

theorem min_bound_fold (l : List Nat) (X v0 : Nat) :
    (∀ v ∈ l, v0 ≤ v) → min v0 (l.foldr min X) = min v0 X := by
  induction l with
  | nil => intro _; rfl
  | cons a rest ih =>
    intro hall
    have ha := hall a (List.mem_cons_self _ _)
    have ih' := ih (fun v hv => hall v (List.mem_cons_of_mem a hv))
    show min v0 (min a (rest.foldr min X)) = min v0 X
    omega

theorem fold_min_of_mem (l : List Nat) (X v0 : Nat) :
    v0 ∈ l → (∀ v ∈ l, v0 ≤ v) → l.foldr min X = min v0 X := by
  induction l with
  | nil => intro hmem _; cases hmem
  | cons a rest ih =>
    intro hmem hall
    show min a (rest.foldr min X) = min v0 X
    rcases List.mem_cons.mp hmem with rfl | hmem'
    · exact min_bound_fold rest X v0 (fun v hv => hall v (List.mem_cons_of_mem _ hv))
    · have hrec := ih hmem' (fun v hv => hall v (List.mem_cons_of_mem a hv))
      have ha := hall a (List.mem_cons_self _ _)
      rw [hrec]
      omega

theorem find?_congr' {α : Type} (p q : α → Bool) :
    ∀ l : List α, (∀ x ∈ l, p x = q x) → l.find? p = l.find? q := by
  intro l
  induction l with
  | nil => intro _; rfl
  | cons a rest ih =>
    intro h
    have ha := h a (List.mem_cons_self _ _)
    by_cases hpa : p a = true
    · rw [List.find?_cons_of_pos _ hpa, List.find?_cons_of_pos _ (ha ▸ hpa)]
    · rw [List.find?_cons_of_neg _ (by simpa using hpa),
        List.find?_cons_of_neg _ (by rw [← ha]; simpa using hpa)]
      exact ih (fun x hx => h x (List.mem_cons_of_mem a hx))

theorem find?_range'_le {P : Nat → Bool} :
    ∀ (n a s0 : Nat), (List.range' a n).find? P = some s0 →
      ∀ s ∈ List.range' a n, P s = true → s0 ≤ s := by
  intro n
  induction n with
  | zero =>
    intro a s0 h
    simp [List.range'] at h
  | succ n ih =>
    intro a s0 h s hs hPs
    rw [List.range'_succ] at h hs
    by_cases hPa : P a = true
    · rw [List.find?_cons_of_pos _ hPa] at h
      cases Option.some.inj h
      rcases List.mem_cons.mp hs with rfl | hs'
      · exact Nat.le_refl s
      · have := (List.mem_range'_1.mp hs').1
        omega
    · rw [List.find?_cons_of_neg _ (by simpa using hPa)] at h
      rcases List.mem_cons.mp hs with rfl | hs'
      · exact absurd hPs (by simpa using hPa)
      · exact ih (a + 1) s0 h s hs' hPs

/-- The outer fold of `calc_core_pll_rate` computes, in its first
component, the minimum over all satisfying (primary, secondary)
products, folded with the initial value — provided the `u64` products do
not wrap. -/
theorem primBest_foldl_eq (cm t : Nat) :
    ∀ (l : List Nat),
      (∀ p ∈ l, ∀ s ∈ List.range' 1 256, (t * s * p) % M64 = t * s * p) →
      ∀ (init : Nat × Nat × Nat),
      (l.foldl (primBestStep cm t) init).1 =
        (l.flatMap (fun p =>
          ((List.range' 1 256).filter (fun s => cm ≤ t * s * p)).map
            (fun s => t * s * p))).foldr min init.1 := by
  intro l
  induction l with
  | nil => intro _ init; rfl
  | cons p rest ih =>
    intro hmod init
    have hmodp := hmod p (List.mem_cons_self _ _)
    have hmod' := fun q hq => hmod q (List.mem_cons_of_mem p hq)
    have hcong : (List.range' 1 256).find? (fun s => decide (cm ≤ (t * s * p) % M64)) =
        (List.range' 1 256).find? (fun s => decide (cm ≤ t * s * p)) := by
      refine find?_congr' _ _ _ (fun s hs => ?_)
      rw [hmodp s hs]
    show (rest.foldl (primBestStep cm t) (primBestStep cm t init p)).1 = _
    rw [ih hmod']
    rw [List.flatMap_cons, List.foldr_append]
    cases hf : (List.range' 1 256).find? (fun s => decide (cm ≤ t * s * p)) with
    | none =>
      have hstep : primBestStep cm t init p = init := by
        unfold primBestStep
        rw [hcong, hf]
      rw [hstep]
      have hfe : ((List.range' 1 256).filter (fun s => decide (cm ≤ t * s * p))) = [] := by
        refine List.filter_eq_nil_iff.mpr (fun s hs => ?_)
        have := List.find?_eq_none.mp hf s hs
        simpa using this
      rw [hfe]
      rfl
    | some s0 =>
      have hs0mem : s0 ∈ List.range' 1 256 := List.mem_of_find?_eq_some hf
      have hs0sat : cm ≤ t * s0 * p := by simpa using List.find?_some hf
      have hstep1 : (primBestStep cm t init p).1 = min ((t * s0 * p) % M64) init.1 := by
        unfold primBestStep
        rw [hcong, hf]
        dsimp only
        split
        · show t * s0 * p % M64 = min (t * s0 * p % M64) init.1
          omega
        · show init.1 = min (t * s0 * p % M64) init.1
          omega
      rw [hstep1, hmodp s0 hs0mem]
      have hLHS : (rest.flatMap (fun p =>
          ((List.range' 1 256).filter (fun s => decide (cm ≤ t * s * p))).map
            (fun s => t * s * p))).foldr min (min (t * s0 * p) init.1) =
          min (t * s0 * p)
            ((rest.flatMap (fun p =>
              ((List.range' 1 256).filter (fun s => decide (cm ≤ t * s * p))).map
                (fun s => t * s * p))).foldr min init.1) := by
        rw [min_comm (t * s0 * p) init.1, foldr_min_min]
        omega
      rw [hLHS]
      have hv0mem : t * s0 * p ∈
          ((List.range' 1 256).filter (fun s => decide (cm ≤ t * s * p))).map
            (fun s => t * s * p) :=
        List.mem_map_of_mem _ (List.mem_filter_of_mem hs0mem (by simpa using hs0sat))
      have hv0le : ∀ v ∈ ((List.range' 1 256).filter
            (fun s => decide (cm ≤ t * s * p))).map (fun s => t * s * p),
          t * s0 * p ≤ v := by
        intro v hv
        rw [List.mem_map] at hv
        obtain ⟨s, hsf, rfl⟩ := hv
        have hsmem := List.mem_of_mem_filter hsf
        have hssat := List.of_mem_filter hsf
        have hle : s0 ≤ s := find?_range'_le 256 1 s0 hf s hsmem hssat
        have : t * s0 ≤ t * s := Nat.mul_le_mul_left t hle
        exact Nat.mul_le_mul_right p this
      rw [fold_min_of_mem _ _ _ hv0mem hv0le]

theorem comboList_mem_ge (xosc_rate target_rate v : Nat)
    (hv : v ∈ comboList xosc_rate target_rate) : xosc_rate * 16 ≤ v := by
  unfold comboList at hv
  rw [List.mem_flatMap] at hv
  obtain ⟨p, hp, hvp⟩ := hv
  rw [List.mem_map] at hvp
  obtain ⟨s, hs, rfl⟩ := hvp
  have := List.of_mem_filter hs
  simpa using this

theorem pllRederive_lower (xosc x : Nat) (hx : 0 < xosc) (h : xosc * 16 ≤ x) :
    xosc * 16 ≤ pllRederive xosc x := by
  unfold pllRederive
  have h2 : 16 * 2 ^ 24 ≤ (x * 2 ^ 24 + xosc / 2) / xosc := by
    rw [Nat.le_div_iff_mul_le hx]
    have hmul : xosc * 16 * 2 ^ 24 ≤ x * 2 ^ 24 :=
      Nat.mul_le_mul h (Nat.le_refl (2 ^ 24))
    omega
  have h3 : xosc * (16 * 2 ^ 24) ≤ xosc * ((x * 2 ^ 24 + xosc / 2) / xosc) :=
    Nat.mul_le_mul_left xosc h2
  rw [Nat.le_div_iff_mul_le (by norm_num : (0 : Nat) < 2 ^ 24)]
  nlinarith

theorem pllRederive_upper (xosc x : Nat) (hx : 0 < xosc) :
    pllRederive xosc x ≤ x + (xosc / 2 + 2 ^ 23) / 2 ^ 24 := by
  unfold pllRederive
  have h1 : xosc * ((x * 2 ^ 24 + xosc / 2) / xosc) ≤ x * 2 ^ 24 + xosc / 2 :=
    Nat.mul_div_le _ xosc
  generalize xosc * ((x * 2 ^ 24 + xosc / 2) / xosc) = A at h1 ⊢
  omega

/-- C4 (amended): under no-overflow bounds on the inputs — in
particular a reference of at least 2.4 GHz/127 (≈ 18.9 MHz, amply
satisfied by the 50 MHz xosc), which keeps the C `int` feedback-divisor
arithmetic inside `int` range — `calc_core_pll_rate` searches the
primary table and secondaries 1..256 for the minimum VCO product meeting
`16·reference`; if that minimum does not stay under the 2.4 GHz ceiling
(or no combination qualifies) it returns 0; otherwise it returns the
minimum re-derived through the 24-bit feedback-divisor rounding — a
value at least `16·reference`, but only within
`(reference/2 + 2^23)/2^24` of the true minimum, so the returned rate
can differ from the exact minimum product and can land on or slightly
above the ceiling. -/
theorem c4_core_pll (xosc_rate target_rate : Nat) (hx : 0 < xosc_rate)
    (hxb : xosc_rate < 2 ^ 40) (hx127 : 2400000000 ≤ 127 * xosc_rate)
    (ht : target_rate < 2 ^ 50) :
    (2400000000 ≤ comboMin xosc_rate target_rate →
      (calc_core_pll_rate xosc_rate target_rate).1 = 0) ∧
    (comboMin xosc_rate target_rate < 2400000000 →
      (calc_core_pll_rate xosc_rate target_rate).1 =
        pllRederive xosc_rate (comboMin xosc_rate target_rate) ∧
      xosc_rate * 16 ≤ (calc_core_pll_rate xosc_rate target_rate).1 ∧
      (calc_core_pll_rate xosc_rate target_rate).1 ≤
        comboMin xosc_rate target_rate + (xosc_rate / 2 + 2 ^ 23) / 2 ^ 24) := by
  have hple : ∀ p ∈ prim_divs, p ≤ 49 := by decide
  have hmod : ∀ p ∈ prim_divs, ∀ s ∈ List.range' 1 256,
      (target_rate * s * p) % M64 = target_rate * s * p := by
    intro p hp s hs
    have hs' := List.mem_range'_1.mp hs
    have hp' := hple p hp
    refine Nat.mod_eq_of_lt ?_
    have h1 : target_rate * s ≤ target_rate * 256 := Nat.mul_le_mul_left _ (by omega)
    have h2 : target_rate * s * p ≤ target_rate * 256 * 49 := by
      calc target_rate * s * p ≤ target_rate * 256 * p := Nat.mul_le_mul_right p h1
      _ ≤ target_rate * 256 * 49 := Nat.mul_le_mul_left _ hp'
    have h3 : target_rate * 256 * 49 < 2 ^ 50 * 256 * 49 := by
      have : 0 < (256 * 49 : Nat) := by norm_num
      nlinarith
    unfold M64
    nlinarith
  have hbest : (prim_divs.foldl (primBestStep (xosc_rate * 16) target_rate)
      (2400000000 + 1, 1, 1)).1 = comboMin xosc_rate target_rate := by
    rw [primBest_foldl_eq (xosc_rate * 16) target_rate prim_divs hmod (2400000000 + 1, 1, 1)]
    rfl
  constructor
  · intro hge
    unfold calc_core_pll_rate
    dsimp only
    rw [hbest, if_neg (by omega)]
  · intro hlt
    have hcm_lt_init : comboMin xosc_rate target_rate < 2400000000 + 1 := by omega
    have hmem : comboMin xosc_rate target_rate ∈ comboList xosc_rate target_rate :=
      foldr_min_lt_mem _ _ hcm_lt_init
    have hge16 : xosc_rate * 16 ≤ comboMin xosc_rate target_rate :=
      comboList_mem_ge _ _ _ hmem
    have hq : (comboMin xosc_rate target_rate * 2 ^ 24 + xosc_rate / 2) / xosc_rate
        < 128 * 2 ^ 24 := by
      have h1 : comboMin xosc_rate target_rate + 1 ≤ 127 * xosc_rate := by omega
      have h2 : (comboMin xosc_rate target_rate + 1) * 2 ^ 24 ≤ 127 * xosc_rate * 2 ^ 24 :=
        Nat.mul_le_mul h1 (Nat.le_refl _)
      rw [Nat.div_lt_iff_lt_mul hx]
      omega
    have hval : (calc_core_pll_rate xosc_rate target_rate).1 =
        pllRederive xosc_rate (comboMin xosc_rate target_rate) := by
      unfold calc_core_pll_rate pllRederive
      dsimp only
      rw [hbest, if_pos (by omega)]
      dsimp only
      rw [Nat.shiftLeft_eq (comboMin xosc_rate target_rate) 24]
      have h1 : xosc_rate *
          ((comboMin xosc_rate target_rate * 2 ^ 24 + xosc_rate / 2) / xosc_rate) ≤
          comboMin xosc_rate target_rate * 2 ^ 24 + xosc_rate / 2 :=
        Nat.mul_div_le _ xosc_rate
      generalize hD :
        (comboMin xosc_rate target_rate * 2 ^ 24 + xosc_rate / 2) / xosc_rate = D
      rw [hD] at hq h1
      have hd24 : D >>> 24 = D / 2 ^ 24 := Nat.shiftRight_eq_div_pow D 24
      have e1 : (D / 2 ^ 24) % M32 = D / 2 ^ 24 := by
        refine Nat.mod_eq_of_lt ?_
        unfold M32
        omega
      have e2 : (D / 2 ^ 24) <<< 24 = D / 2 ^ 24 * 2 ^ 24 := Nat.shiftLeft_eq _ 24
      have e3 : (D / 2 ^ 24 * 2 ^ 24) % M32 = D / 2 ^ 24 * 2 ^ 24 := by
        refine Nat.mod_eq_of_lt ?_
        unfold M32
        omega
      have e4 : D % (1 <<< 24) = D % 2 ^ 24 := by
        rw [(by decide : (1 <<< 24 : Nat) = 2 ^ 24)]
      have e5 : (D / 2 ^ 24 * 2 ^ 24 + D % 2 ^ 24) % M32 = D := by
        unfold M32
        omega
      have e6 : sext64 D = D := by
        unfold sext64
        rw [if_pos (by omega)]
      rw [hd24, e1, e2, e3, e4, e5, e6]
      have e7 : (xosc_rate * D + (1 <<< 23)) % M64 = xosc_rate * D + 2 ^ 23 := by
        rw [(by decide : (1 <<< 23 : Nat) = 2 ^ 23)]
        refine Nat.mod_eq_of_lt ?_
        unfold M64
        generalize xosc_rate * D = A at h1
        omega
      rw [e7, Nat.shiftRight_eq_div_pow]
    refine ⟨hval, ?_, ?_⟩
    · rw [hval]
      exact pllRederive_lower xosc_rate (comboMin xosc_rate target_rate) hx hge16
    · rw [hval]
      exact pllRederive_upper xosc_rate (comboMin xosc_rate target_rate) hx

set_option maxRecDepth 4000 in
/-- Witness for `c4_core_pll`: 50 MHz reference, 70 kHz target (only
the largest primary divisor 49 with secondaries 234..256 can reach the
minimum VCO rate) — the returned VCO rate is the minimum combination
re-derived through the 24-bit rounding. -/
theorem c4_core_pll_witness :
    (calc_core_pll_rate 50000000 70000).1 =
      pllRederive 50000000 (comboMin 50000000 70000) :=
  ((c4_core_pll 50000000 70000 (by decide) (by decide) (by decide) (by decide)).2
    (by decide)).1

set_option maxRecDepth 4000 in
/-- C4 counterexample: at reference 149999995 Hz and target 1199999998 Hz
the minimum satisfying combination is 2399999996 (inside the ceiling),
but the returned re-derived VCO rate is exactly 2400000000 — not below
the 2.4 GHz ceiling and not equal to the minimum combination, refuting
the claim's "[16·reference, 2.4 GHz)" range and the minimality of the
returned value. -/
theorem c4_counterexample :
    (calc_core_pll_rate 149999995 1199999998).1 = 2400000000 ∧
      comboMin 149999995 1199999998 = 2399999996 ∧
      ¬ ((calc_core_pll_rate 149999995 1199999998).1 < 2400000000) ∧
      (calc_core_pll_rate 149999995 1199999998).1 ≠ comboMin 149999995 1199999998 := by
  have hmod : ∀ p ∈ prim_divs, ∀ s ∈ List.range' 1 256,
      (1199999998 * s * p) % M64 = 1199999998 * s * p := by decide
  have hmem : (2399999996 : Nat) ∈ comboList 149999995 1199999998 := by
    unfold comboList
    rw [List.mem_flatMap]
    refine ⟨2, by decide, ?_⟩
    rw [List.mem_map]
    refine ⟨1, ?_, by norm_num⟩
    refine List.mem_filter_of_mem (List.mem_range'_1.mpr (by omega)) (by decide)
  have hall : ∀ v ∈ comboList 149999995 1199999998, 2399999996 ≤ v := by
    intro v hv
    unfold comboList at hv
    rw [List.mem_flatMap] at hv
    obtain ⟨p, hp, hvp⟩ := hv
    rw [List.mem_map] at hvp
    obtain ⟨s, hs, rfl⟩ := hvp
    have hp2 : 2 ≤ p := by
      have : ∀ q ∈ prim_divs, 2 ≤ q := by decide
      exact this p hp
    have hs1 : 1 ≤ s := (List.mem_range'_1.mp (List.mem_of_mem_filter hs)).1
    calc (2399999996 : Nat) = 1199999998 * 1 * 2 := by norm_num
    _ ≤ 1199999998 * s * p :=
      Nat.mul_le_mul (Nat.mul_le_mul_left _ hs1) hp2
  have hcm : comboMin 149999995 1199999998 = 2399999996 := by
    unfold comboMin
    rw [fold_min_of_mem _ _ _ hmem hall]
    omega
  have hfold : (prim_divs.foldl (primBestStep (149999995 * 16) 1199999998)
      (2400000000 + 1, 1, 1)).1 = 2399999996 := by
    rw [primBest_foldl_eq (149999995 * 16) 1199999998 prim_divs hmod (2400000000 + 1, 1, 1)]
    exact hcm
  have hcalc : (calc_core_pll_rate 149999995 1199999998).1 = 2400000000 := by
    unfold calc_core_pll_rate
    dsimp only
    rw [hfold, if_pos (by norm_num)]
    decide
  refine ⟨hcalc, hcm, by omega, by omega⟩

end C4
